import Mathlib

/-!
Verification development for the `q_task` crate (`src/lib.rs`): a bridge that
lets a single-threaded tick loop launch background tasks producing deferred
command queues, polled once per tick by the `poll_tasks` system.

Shallow embedding:
- An entity id is a `Nat`; the ECS world is a record of the live entity list,
  the `TaskComponent` table (an association list from entity id to the state of
  the stored `Task<CommandQueue>` handle), an opaque domain-mutation log
  (`flags`), and a log of triggered events (`eventLog`).
- A `CommandQueue` is a `List Op`.  A caller-pushed domain mutation is the
  opaque `Op.domain tag` (it only appends its tag to `flags`); the single
  closure pushed by the `task!` macro after the body returns
  (`world.despawn(id); world.trigger(event)`) is `Op.finalize id ev`.
- `bevy_tasks` panics are modelled as `Except` errors (`PanicKind`): the pool
  accessor `get()` panics when the pool is not initialized, an
  `async_task::Task` panics when polled after its output was taken, and a
  panic inside the spawned future resumes on the polling thread.
-/

namespace QTasks

/-- One deferred operation of a `CommandQueue` (`bevy_ecs::world::CommandQueue`).
`domain tag` is an opaque caller-pushed world mutation, recorded by its tag;
`finalize id ev` is the single trailing closure pushed by the `task!` macro
(lib.rs lines 63-66): `world.despawn(id)` followed, when an event was supplied,
by `world.trigger(event)`. -/
inductive Op where
  | domain (tag : Nat)
  | finalize (id : Nat) (ev : Option Nat)
deriving DecidableEq, Repr

/-- The state of the `Task<CommandQueue>` handle stored in a `TaskComponent`
(lib.rs line 7).  `pending body ev panics` is a still-running future that will
push the domain ops `body`, then (on normal return) the trailing closure; if
`panics` is true the body panics instead.  `done q` holds the produced queue,
not yet taken; `taken` is a task whose output was already taken (polling it
again panics, per `async_task`); `failed` is a task whose future panicked
(polling it resumes the panic on the polling thread). -/
inductive TaskState where
  | pending (body : List Op) (ev : Option Nat) (panics : Bool)
  | done (q : List Op)
  | taken
  | failed
deriving DecidableEq, Repr

/-- The shared ECS world, restricted to what the crate touches: the allocator
for fresh entity ids, the live entity list, the `TaskComponent` table keyed by
entity id, the opaque domain-mutation log, and the log of triggered events. -/
structure World where
  nextId : Nat
  entities : List Nat
  tasks : List (Nat × TaskState)
  flags : List Nat
  eventLog : List Nat
deriving DecidableEq, Repr

/-- The world with no entities and no history. -/
def World.empty : World := ⟨0, [], [], [], []⟩

/-- Kinds of panic the crate can hit: `<pool>::get()` on an uninitialized pool
(launch time), polling an `async_task` after its output was taken, and the
resumed panic of a spawned future that panicked. -/
inductive PanicKind where
  | poolUnavailable
  | polledAfterCompletion
  | taskPanicked
deriving DecidableEq, Repr

/-- The queue produced by the wrapper closure spawned by `task!`
(lib.rs lines 60-68): the body's own pushes followed by the single trailing
closure that despawns the record and optionally triggers the event. -/
def buildQueue (body : List Op) (ev : Option Nat) (id : Nat) : List Op :=
  body ++ [Op.finalize id ev]

/-- `world.despawn(id)`: removes the entity and its components; a no-op (apart
from a logged warning) when the entity does not exist. -/
def despawnW (id : Nat) (w : World) : World :=
  { w with entities := w.entities.filter (fun e => e != id),
           tasks := w.tasks.filter (fun p => p.1 != id) }

/-- Applying one deferred operation to the world, on the owning thread.
`finalize` first despawns the record, then (unconditionally, whatever the
despawn did) triggers the event when one was supplied. -/
def applyOp (op : Op) (w : World) : World :=
  match op with
  | .domain t => { w with flags := w.flags ++ [t] }
  | .finalize id ev =>
    let w1 := despawnW id w
    match ev with
    | some e => { w1 with eventLog := w1.eventLog ++ [e] }
    | none => w1

/-- Sequential application of a command buffer, in append order. -/
def applyOps (ops : List Op) (w : World) : World :=
  ops.foldl (fun acc op => applyOp op acc) w

/-- `block_on(future::poll_once(&mut task.0))` on one stored handle
(lib.rs line 11): a still-running task yields `none`; a finished task yields
its queue and becomes `taken`; a `taken` task panics (polled after
completion); a panicked task resumes its panic. -/
def pollOnce : TaskState → Except PanicKind (Option (List Op) × TaskState)
  | .pending b e p => .ok (none, .pending b e p)
  | .done q => .ok (some q, .taken)
  | .taken => .error .polledAfterCompletion
  | .failed => .error .taskPanicked

/-- The loop body of `poll_tasks` (lib.rs lines 10-14) over the task table, in
query-iteration order: each finished queue is appended to the system's pending
command buffer via `commands.append(&mut q)`. -/
def pollTasksGo : List (Nat × TaskState) → List Op →
    Except PanicKind (List (Nat × TaskState) × List Op)
  | [], buf => .ok ([], buf)
  | (i, s) :: rest, buf =>
    match pollOnce s with
    | .error e => .error e
    | .ok (res, s1) =>
      match pollTasksGo rest (buf ++ res.getD []) with
      | .error e => .error e
      | .ok (rest1, buf1) => .ok ((i, s1) :: rest1, buf1)

/-- The `poll_tasks` system (lib.rs lines 9-15): polls every `TaskComponent`
and appends each finished queue to the tick's pending command buffer; the
buffer is applied at the next sync point, not here. -/
def pollTasks (w : World) (buf : List Op) :
    Except PanicKind (World × List Op) :=
  match pollTasksGo w.tasks buf with
  | .error e => .error e
  | .ok (ts, buf1) => .ok ({ w with tasks := ts }, buf1)

/-- The launch closure produced by `task!` (lib.rs lines 56-71):
`world.spawn_empty()` allocates a fresh entity, its id is captured, the wrapper
future is handed to `<pool>::get().spawn(..)`, and the returned handle is
inserted as a `TaskComponent` on the new entity.  When the pool is not
initialized, `get()` panics after the empty entity was already spawned, so the
error case carries the world with the fresh component-less entity left behind. -/
def launch (poolAvailable : Bool) (body : List Op) (ev : Option Nat)
    (panics : Bool) (w : World) : Except (PanicKind × World) World :=
  let id := w.nextId
  let w1 : World := { w with nextId := id + 1, entities := w.entities ++ [id] }
  if poolAvailable then
    .ok { w1 with tasks := w1.tasks ++ [(id, TaskState.pending body ev panics)] }
  else
    .error (PanicKind.poolUnavailable, w1)

/-- How a pending task resolves when its future finishes running: a normal
return yields the queue built by the wrapper (`buildQueue`), a panicking body
leaves the task failed (the trailing closure is never pushed). -/
def stepState (id : Nat) : TaskState → TaskState
  | .pending body ev panics =>
      if panics then .failed else .done (buildQueue body ev id)
  | s => s

/-- Resolution of the background future stored under entity `id`: the
worker-pool side finishing that task.  Every other entry is untouched. -/
def completeTask (id : Nat) (w : World) : World :=
  { w with
    tasks := w.tasks.map (fun p => if p.1 = id then (p.1, stepState id p.2) else p) }

/-- Looks up the task state stored for an entity id in a task table. -/
def lookupTask : List (Nat × TaskState) → Nat → Option TaskState
  | [], _ => none
  | (i, s) :: ts, id => if i = id then some s else lookupTask ts id

/-- Looks up the `TaskComponent` state of an entity in the world. -/
def getTask (w : World) (id : Nat) : Option TaskState :=
  lookupTask w.tasks id

/-- What polling does to one stored handle, on the success path. -/
def afterPoll : TaskState → TaskState
  | .done _ => .taken
  | s => s

/-- The ops one stored handle contributes to the buffer when polled. -/
def pollContrib : TaskState → List Op
  | .done q => q
  | _ => []

/-- States `pollOnce` handles without panicking. -/
def pollable : TaskState → Bool
  | .pending _ _ _ => true
  | .done _ => true
  | _ => false

/-- Whether an op is an opaque caller-pushed domain mutation. -/
def isDomainOp : Op → Bool
  | .domain _ => true
  | _ => false

/-- Well-formedness the ECS id allocator maintains: every live id and every
task-table key is below the allocator's next id. -/
def wf (w : World) : Prop :=
  (∀ e ∈ w.entities, e < w.nextId) ∧ (∀ p ∈ w.tasks, p.1 < w.nextId)

/-! ## Basic lemmas about the task-table lookup -/

theorem lookupTask_append_fresh {ts : List (Nat × TaskState)} {id : Nat}
    (s : TaskState) (h : ∀ p ∈ ts, p.1 ≠ id) :
    lookupTask (ts ++ [(id, s)]) id = some s := by
  induction ts with
  | nil => simp [lookupTask]
  | cons a ts ih =>
    cases a with
    | mk i s0 =>
      have ha : i ≠ id := h (i, s0) (by simp)
      simp only [List.cons_append, lookupTask]
      rw [if_neg ha]
      exact ih (fun p hp => h p (by simp [hp]))

theorem lookupTask_append_ne {ts : List (Nat × TaskState)} {id j : Nat}
    (s : TaskState) (h : j ≠ id) :
    lookupTask (ts ++ [(id, s)]) j = lookupTask ts j := by
  induction ts with
  | nil => simp [lookupTask, Ne.symm h]
  | cons a ts ih =>
    cases a with
    | mk i s0 =>
      by_cases hij : i = j
      · simp [lookupTask, hij]
      · simp [lookupTask, hij, ih, List.append_eq]

theorem lookupTask_map (f : TaskState → TaskState)
    (ts : List (Nat × TaskState)) (id : Nat) :
    lookupTask (ts.map (fun p => (p.1, f p.2))) id =
      (lookupTask ts id).map f := by
  induction ts with
  | nil => rfl
  | cons a ts ih =>
    cases a with
    | mk i s0 =>
      simp only [List.map_cons, lookupTask]
      split <;> simp [ih]

theorem lookupTask_mem {ts : List (Nat × TaskState)} {id : Nat} {s : TaskState}
    (h : lookupTask ts id = some s) : (id, s) ∈ ts := by
  induction ts with
  | nil => simp [lookupTask] at h
  | cons a ts ih =>
    cases a with
    | mk i s0 =>
      simp only [lookupTask] at h
      by_cases hi : i = id
      · rw [if_pos hi] at h
        injection h with h
        subst hi
        subst h
        simp
      · rw [if_neg hi] at h
        exact List.mem_cons_of_mem _ (ih h)

theorem map_update_fresh {ts : List (Nat × TaskState)} {id : Nat}
    (g : TaskState → TaskState) (h : ∀ p ∈ ts, p.1 ≠ id) :
    ts.map (fun p => if p.1 = id then (p.1, g p.2) else p) = ts := by
  induction ts with
  | nil => rfl
  | cons a ts ih =>
    simp only [List.map_cons]
    rw [if_neg (h a (by simp)), ih (fun p hp => h p (by simp [hp]))]

/-! ## Unfolding lemmas for the poll loop -/

theorem pollTasksGo_cons_pending (i : Nat) (b : List Op) (e : Option Nat)
    (p : Bool) (ts : List (Nat × TaskState)) (buf : List Op) :
    pollTasksGo ((i, TaskState.pending b e p) :: ts) buf =
      match pollTasksGo ts buf with
      | .error e2 => .error e2
      | .ok (r, b2) => .ok ((i, TaskState.pending b e p) :: r, b2) := by
  simp [pollTasksGo, pollOnce]

theorem pollTasksGo_cons_done (i : Nat) (q : List Op)
    (ts : List (Nat × TaskState)) (buf : List Op) :
    pollTasksGo ((i, TaskState.done q) :: ts) buf =
      match pollTasksGo ts (buf ++ q) with
      | .error e2 => .error e2
      | .ok (r, b2) => .ok ((i, TaskState.taken) :: r, b2) := by
  simp [pollTasksGo, pollOnce]

theorem pollTasksGo_cons_taken (i : Nat) (ts : List (Nat × TaskState))
    (buf : List Op) :
    pollTasksGo ((i, TaskState.taken) :: ts) buf =
      .error PanicKind.polledAfterCompletion := rfl

theorem pollTasksGo_cons_failed (i : Nat) (ts : List (Nat × TaskState))
    (buf : List Op) :
    pollTasksGo ((i, TaskState.failed) :: ts) buf =
      .error PanicKind.taskPanicked := rfl

/-! ## Characterization of a successful poll -/

theorem pollTasksGo_ok_of_pollable {ts : List (Nat × TaskState)}
    (h : ∀ p ∈ ts, pollable p.2 = true) (buf : List Op) :
    pollTasksGo ts buf =
      .ok (ts.map (fun p => (p.1, afterPoll p.2)),
           buf ++ (ts.map (fun p => pollContrib p.2)).flatten) := by
  induction ts generalizing buf with
  | nil => simp [pollTasksGo]
  | cons a ts ih =>
    cases a with
    | mk i s =>
      have hs : pollable s = true := h (i, s) (by simp)
      have hts : ∀ p ∈ ts, pollable p.2 = true := fun p hp => h p (by simp [hp])
      cases s with
      | pending b e p =>
        rw [pollTasksGo_cons_pending, ih hts]
        simp [afterPoll, pollContrib]
      | done q =>
        rw [pollTasksGo_cons_done, ih hts]
        simp [afterPoll, pollContrib]
      | taken => simp [pollable] at hs
      | failed => simp [pollable] at hs

theorem pollTasksGo_pollable {ts : List (Nat × TaskState)} {buf : List Op}
    {r : List (Nat × TaskState) × List Op}
    (h : pollTasksGo ts buf = .ok r) : ∀ p ∈ ts, pollable p.2 = true := by
  induction ts generalizing buf r with
  | nil => simp
  | cons a ts ih =>
    cases a with
    | mk i s =>
      intro p hp
      cases s with
      | pending b e pk =>
        rw [pollTasksGo_cons_pending] at h
        cases hrec : pollTasksGo ts buf with
        | error e2 => rw [hrec] at h; simp at h
        | ok r2 =>
          rw [hrec] at h
          rcases List.mem_cons.mp hp with h1 | h1
          · subst h1; rfl
          · exact ih hrec p h1
      | done q =>
        rw [pollTasksGo_cons_done] at h
        cases hrec : pollTasksGo ts (buf ++ q) with
        | error e2 => rw [hrec] at h; simp at h
        | ok r2 =>
          rw [hrec] at h
          rcases List.mem_cons.mp hp with h1 | h1
          · subst h1; rfl
          · exact ih hrec p h1
      | taken => rw [pollTasksGo_cons_taken] at h; simp at h
      | failed => rw [pollTasksGo_cons_failed] at h; simp at h

theorem pollTasksGo_ok {ts ts1 : List (Nat × TaskState)} {buf buf1 : List Op}
    (h : pollTasksGo ts buf = .ok (ts1, buf1)) :
    ts1 = ts.map (fun p => (p.1, afterPoll p.2)) ∧
    buf1 = buf ++ (ts.map (fun p => pollContrib p.2)).flatten := by
  have hp := pollTasksGo_pollable h
  rw [pollTasksGo_ok_of_pollable hp buf] at h
  simp only [Except.ok.injEq, Prod.mk.injEq] at h
  exact ⟨h.1.symm, h.2.symm⟩

theorem pollTasks_ok {w w1 : World} {buf buf1 : List Op}
    (h : pollTasks w buf = .ok (w1, buf1)) :
    w1 = { w with tasks := w.tasks.map (fun p => (p.1, afterPoll p.2)) } ∧
    buf1 = buf ++ (w.tasks.map (fun p => pollContrib p.2)).flatten := by
  unfold pollTasks at h
  cases hgo : pollTasksGo w.tasks buf with
  | error e => rw [hgo] at h; simp at h
  | ok r =>
    rw [hgo] at h
    cases r with
    | mk ts1 b1 =>
      obtain ⟨h1, h2⟩ := pollTasksGo_ok hgo
      simp only [Except.ok.injEq, Prod.mk.injEq] at h
      refine ⟨?_, by rw [← h.2, h2]⟩
      rw [← h.1, h1]

theorem pollTasks_ok_of_pollable {w : World}
    (h : ∀ p ∈ w.tasks, pollable p.2 = true) (buf : List Op) :
    pollTasks w buf =
      .ok ({ w with tasks := w.tasks.map (fun p => (p.1, afterPoll p.2)) },
           buf ++ (w.tasks.map (fun p => pollContrib p.2)).flatten) := by
  unfold pollTasks
  rw [pollTasksGo_ok_of_pollable h buf]

theorem pollTasksGo_failed_last {ts : List (Nat × TaskState)} (id : Nat)
    (h : ∀ p ∈ ts, p.2 ≠ TaskState.taken) (buf : List Op) :
    pollTasksGo (ts ++ [(id, TaskState.failed)]) buf =
      .error PanicKind.taskPanicked := by
  induction ts generalizing buf with
  | nil => rfl
  | cons a ts ih =>
    cases a with
    | mk i s =>
      have hs := h (i, s) (by simp)
      have hts : ∀ p ∈ ts, p.2 ≠ TaskState.taken :=
        fun p hp => h p (by simp [hp])
      cases s with
      | pending b e p =>
        rw [List.cons_append, pollTasksGo_cons_pending, ih hts]
      | done q =>
        rw [List.cons_append, pollTasksGo_cons_done, ih hts]
      | taken => exact absurd rfl hs
      | failed => rfl

/-! ## Small facts about poll-step states -/

theorem afterPoll_afterPoll (s : TaskState) :
    afterPoll (afterPoll s) = afterPoll s := by
  cases s <;> rfl

theorem pollContrib_afterPoll (s : TaskState) :
    pollContrib (afterPoll s) = [] := by
  cases s <;> rfl

/-! ## Lemmas about applying command buffers -/

theorem applyOps_cons (op : Op) (ops : List Op) (w : World) :
    applyOps (op :: ops) w = applyOps ops (applyOp op w) := rfl

theorem applyOps_append (a b : List Op) (w : World) :
    applyOps (a ++ b) w = applyOps b (applyOps a w) := by
  simp [applyOps, List.foldl_append]

theorem applyOps_domain {ops : List Op}
    (h : ∀ op ∈ ops, isDomainOp op = true) (w : World) :
    (applyOps ops w).entities = w.entities ∧
    (applyOps ops w).eventLog = w.eventLog ∧
    (applyOps ops w).tasks = w.tasks ∧
    (applyOps ops w).nextId = w.nextId := by
  induction ops generalizing w with
  | nil => exact ⟨rfl, rfl, rfl, rfl⟩
  | cons op ops ih =>
    have hop := h op (by simp)
    have hops : ∀ o ∈ ops, isDomainOp o = true := fun o ho => h o (by simp [ho])
    cases op with
    | domain t => simpa [applyOps_cons, applyOp] using ih hops { w with flags := w.flags ++ [t] }
    | finalize id ev => simp [isDomainOp] at hop

theorem applyOp_finalize_eventLog (id : Nat) (ev : Option Nat) (w : World) :
    (applyOp (Op.finalize id ev) w).eventLog = w.eventLog ++ ev.toList := by
  cases ev <;> simp [applyOp, despawnW, Option.toList]

theorem applyOp_finalize_not_mem (id : Nat) (ev : Option Nat) (w : World) :
    id ∉ (applyOp (Op.finalize id ev) w).entities := by
  cases ev <;> simp [applyOp, despawnW, List.mem_filter]

theorem despawnW_absent (id : Nat) (w : World)
    (h1 : id ∉ w.entities) (h2 : ∀ p ∈ w.tasks, p.1 ≠ id) :
    despawnW id w = w := by
  unfold despawnW
  have he : w.entities.filter (fun e => e != id) = w.entities :=
    List.filter_eq_self.mpr (fun a ha => by
      simp only [bne_iff_ne, ne_eq, decide_eq_true_eq]
      exact fun hc => h1 (hc ▸ ha))
  have ht : w.tasks.filter (fun p => p.1 != id) = w.tasks :=
    List.filter_eq_self.mpr (fun p hp => by
      simp only [bne_iff_ne, ne_eq, decide_eq_true_eq]
      exact h2 p hp)
  rw [he, ht]

/-! ## Launch and completion, explicitly -/

theorem launch_true_eq (body : List Op) (ev : Option Nat) (pk : Bool)
    (w : World) :
    launch true body ev pk w =
      .ok { w with nextId := w.nextId + 1,
                   entities := w.entities ++ [w.nextId],
                   tasks := w.tasks ++ [(w.nextId, TaskState.pending body ev pk)] } := rfl

theorem launch_false_eq (body : List Op) (ev : Option Nat) (pk : Bool)
    (w : World) :
    launch false body ev pk w =
      .error (PanicKind.poolUnavailable,
              { w with nextId := w.nextId + 1,
                       entities := w.entities ++ [w.nextId] }) := rfl

theorem completeTask_tasks_append {ts : List (Nat × TaskState)} {id : Nat}
    (s : TaskState) (w : World) (h : ∀ p ∈ ts, p.1 ≠ id)
    (hw : w.tasks = ts ++ [(id, s)]) :
    (completeTask id w).tasks = ts ++ [(id, stepState id s)] := by
  unfold completeTask
  rw [hw, List.map_append, map_update_fresh (stepState id) h]
  simp

theorem join_map_pollContrib_afterPoll (ts : List (Nat × TaskState)) :
    ((ts.map (fun p => (p.1, afterPoll p.2))).map
        (fun p => pollContrib p.2)).flatten = [] := by
  induction ts with
  | nil => rfl
  | cons a ts ih => simp [pollContrib_afterPoll, ih]

theorem lookupTask_none {ts : List (Nat × TaskState)} {id : Nat}
    (h : ∀ p ∈ ts, p.1 ≠ id) : lookupTask ts id = none := by
  induction ts with
  | nil => rfl
  | cons a ts ih =>
    cases a with
    | mk i s =>
      simp only [lookupTask]
      rw [if_neg (h (i, s) (by simp))]
      exact ih (fun p hp => h p (by simp [hp]))

theorem map_afterPoll_of_pending {ts : List (Nat × TaskState)}
    (h : ∀ p ∈ ts, ∃ bd ev pk, p.2 = TaskState.pending bd ev pk) :
    ts.map (fun p => (p.1, afterPoll p.2)) = ts := by
  induction ts with
  | nil => rfl
  | cons a ts ih =>
    obtain ⟨bd, ev, pk, ha⟩ := h a (by simp)
    cases a with
    | mk i s =>
      simp only at ha
      subst ha
      simp only [List.map_cons]
      rw [ih (fun p hp => h p (by simp [hp]))]
      rfl

theorem flatten_contrib_of_pending {ts : List (Nat × TaskState)}
    (h : ∀ p ∈ ts, ∃ bd ev pk, p.2 = TaskState.pending bd ev pk) :
    (ts.map (fun p => pollContrib p.2)).flatten = [] := by
  induction ts with
  | nil => rfl
  | cons a ts ih =>
    obtain ⟨bd, ev, pk, ha⟩ := h a (by simp)
    cases a with
    | mk i s =>
      simp only at ha
      subst ha
      simp only [List.map_cons, List.flatten_cons]
      rw [ih (fun p hp => h p (by simp [hp]))]
      rfl

theorem map_afterPoll_idem (ts : List (Nat × TaskState)) :
    (ts.map (fun p => (p.1, afterPoll p.2))).map
        (fun p => (p.1, afterPoll p.2)) =
      ts.map (fun p => (p.1, afterPoll p.2)) := by
  induction ts with
  | nil => rfl
  | cons a ts ih => simp [afterPoll_afterPoll, ih]

/-! ## Claim theorems -/

/-- C1: the launch closure creates the Tracking Record synchronously and its
unique identity is obtained before the background closure is submitted: after
a launch the fresh entity is live, the spawned handle is stored on exactly
that entity as its `TaskComponent`, and the stored handle is the one whose
eventual queue targets that identity (on normal completion it resolves to the
body followed by `Op.finalize` at the id assigned at creation). -/
theorem c1_launch_creates_record (body : List Op) (ev : Option Nat)
    (pk : Bool) (w w1 : World)
    (hwf : ∀ p ∈ w.tasks, p.1 < w.nextId)
    (h : launch true body ev pk w = .ok w1) :
    w.nextId ∈ w1.entities ∧
    getTask w1 w.nextId = some (TaskState.pending body ev pk) ∧
    (pk = false →
      getTask (completeTask w.nextId w1) w.nextId =
        some (TaskState.done (body ++ [Op.finalize w.nextId ev]))) := by
  rw [launch_true_eq] at h
  injection h with h
  subst h
  have hfresh : ∀ p ∈ w.tasks, p.1 ≠ w.nextId :=
    fun p hp => Nat.ne_of_lt (hwf p hp)
  refine ⟨by simp, lookupTask_append_fresh _ hfresh, ?_⟩
  intro hpk
  subst hpk
  have hct := completeTask_tasks_append (TaskState.pending body ev false)
    { w with nextId := w.nextId + 1,
             entities := w.entities ++ [w.nextId],
             tasks := w.tasks ++ [(w.nextId, TaskState.pending body ev false)] }
    hfresh rfl
  show lookupTask _ w.nextId = _
  rw [hct, lookupTask_append_fresh _ hfresh]
  rfl

/-- Witness for C1: launching a task with one domain op and a notification on
the empty world stores the handle on entity 0, and on completion the handle
resolves to the body followed by the trailing closure targeting entity 0. -/
theorem c1_witness :
    (0 : Nat) ∈ (⟨1, [0], [(0, TaskState.pending [Op.domain 3] (some 5) false)],
        [], []⟩ : World).entities ∧
    getTask ⟨1, [0], [(0, TaskState.pending [Op.domain 3] (some 5) false)],
        [], []⟩ 0 = some (TaskState.pending [Op.domain 3] (some 5) false) ∧
    (false = false →
      getTask (completeTask 0 ⟨1, [0],
          [(0, TaskState.pending [Op.domain 3] (some 5) false)], [], []⟩) 0 =
        some (TaskState.done ([Op.domain 3] ++ [Op.finalize 0 (some 5)]))) :=
  c1_launch_creates_record [Op.domain 3] (some 5) false World.empty _
    (by decide) rfl

/-- C9: launch performs exactly one shared-state write on the owning thread,
the creation of the new Tracking Record: the entity list gains exactly the
fresh id, the task table gains exactly the new handle entry, the domain state
and the event log are untouched, every pre-existing record is unchanged, and
every pre-existing entity stays live. -/
theorem c9_launch_single_write (body : List Op) (ev : Option Nat) (pk : Bool)
    (w w1 : World) (h : launch true body ev pk w = .ok w1) :
    w1.entities = w.entities ++ [w.nextId] ∧
    w1.tasks = w.tasks ++ [(w.nextId, TaskState.pending body ev pk)] ∧
    w1.flags = w.flags ∧
    w1.eventLog = w.eventLog ∧
    w1.nextId = w.nextId + 1 ∧
    (∀ j, j ≠ w.nextId → getTask w1 j = getTask w j) ∧
    (∀ e ∈ w.entities, e ∈ w1.entities) := by
  rw [launch_true_eq] at h
  injection h with h
  subst h
  refine ⟨rfl, rfl, rfl, rfl, rfl, ?_, ?_⟩
  · intro j hj
    exact lookupTask_append_ne _ hj
  · intro e he
    simp [he]

/-- Witness for C9: launching on a world with one prior entity adds exactly
the new record and leaves everything else as it was. -/
theorem c9_witness :
    (⟨2, [0, 1], [(0, TaskState.taken), (1, TaskState.pending [] none false)], [7], [8]⟩ : World).entities =
        [0] ++ [1] ∧
    (⟨2, [0, 1], [(0, TaskState.taken), (1, TaskState.pending [] none false)], [7], [8]⟩ : World).tasks =
        [(0, TaskState.taken)] ++ [(1, TaskState.pending [] none false)] ∧
    (⟨2, [0, 1], [(0, TaskState.taken), (1, TaskState.pending [] none false)], [7], [8]⟩ : World).flags = [7] ∧
    (⟨2, [0, 1], [(0, TaskState.taken), (1, TaskState.pending [] none false)], [7], [8]⟩ : World).eventLog = [8] ∧
    (⟨2, [0, 1], [(0, TaskState.taken), (1, TaskState.pending [] none false)], [7], [8]⟩ : World).nextId = 1 + 1 ∧
    (∀ j, j ≠ (1 : Nat) →
      getTask ⟨2, [0, 1], [(0, TaskState.taken), (1, TaskState.pending [] none false)], [7], [8]⟩ j =
        getTask ⟨1, [0], [(0, TaskState.taken)], [7], [8]⟩ j) ∧
    (∀ e ∈ ([0] : List Nat),
      e ∈ (⟨2, [0, 1], [(0, TaskState.taken), (1, TaskState.pending [] none false)], [7], [8]⟩ : World).entities) := by
  have h := c9_launch_single_write [] none false
    ⟨1, [0], [(0, TaskState.taken)], [7], [8]⟩
    ⟨2, [0, 1], [(0, TaskState.taken), (1, TaskState.pending [] none false)],
      [7], [8]⟩ rfl
  exact h

/-- C8 counterexample: launching on the empty world while the worker pool is
unavailable panics (no typed SpawnFailure value is returned), and the freshly
spawned record entity is left behind in shared state: the entity list after
the failed launch is `[0]`, not `[]` as the claim requires. -/
theorem c8_counterexample :
    launch false [] none false World.empty =
      .error (PanicKind.poolUnavailable, ⟨1, [0], [], [], []⟩) ∧
    (⟨1, [0], [], [], []⟩ : World).entities ≠ [] :=
  ⟨rfl, by decide⟩

/-- C8 amended: the worker pool of the host never rejects a submission
(`spawn` is infallible); the only launch-time pool failure is an uninitialized
pool, in which case the launch fails synchronously by panicking in the pool
accessor, and the record creation is NOT rolled back: the freshly spawned
entity stays in shared state, with no `TaskComponent` stored on it, while
every other part of shared state is unchanged. -/
theorem c8_amended_no_rollback (body : List Op) (ev : Option Nat) (pk : Bool)
    (w : World) (e : PanicKind × World)
    (hwf : ∀ p ∈ w.tasks, p.1 < w.nextId)
    (h : launch false body ev pk w = .error e) :
    e.1 = PanicKind.poolUnavailable ∧
    e.2.entities = w.entities ++ [w.nextId] ∧
    e.2.tasks = w.tasks ∧
    getTask e.2 w.nextId = none ∧
    e.2.flags = w.flags ∧ e.2.eventLog = w.eventLog := by
  rw [launch_false_eq] at h
  injection h with h
  subst h
  refine ⟨rfl, rfl, rfl, ?_, rfl, rfl⟩
  exact lookupTask_none (fun p hp => Nat.ne_of_lt (hwf p hp))

/-- Witness for C8 amended, at a world with one prior record. -/
theorem c8_amended_witness :
    (PanicKind.poolUnavailable, (⟨2, [0, 1], [(0, TaskState.taken)], [], []⟩ :
        World)).1 = PanicKind.poolUnavailable ∧
    (⟨2, [0, 1], [(0, TaskState.taken)], [], []⟩ : World).entities =
        [0] ++ [1] ∧
    (⟨2, [0, 1], [(0, TaskState.taken)], [], []⟩ : World).tasks =
        [(0, TaskState.taken)] ∧
    getTask ⟨2, [0, 1], [(0, TaskState.taken)], [], []⟩ 1 = none ∧
    (⟨2, [0, 1], [(0, TaskState.taken)], [], []⟩ : World).flags = [] ∧
    (⟨2, [0, 1], [(0, TaskState.taken)], [], []⟩ : World).eventLog = [] :=
  c8_amended_no_rollback [] none false ⟨1, [0], [(0, TaskState.taken)], [], []⟩
    _ (by simp) rfl

/-- C5 counterexample: for a body that pushes no operation and a supplied
notification value, the queue handed back by the background closure contains a
single combined reserved trailing operation (despawn then trigger in one
pushed closure), not two separate trailing operations: its length is 1 where
the claim requires 2. -/
theorem c5_counterexample :
    buildQueue [] (some 5) 7 = [Op.finalize 7 (some 5)] ∧
    (buildQueue [] (some 5) 7).length = 1 ∧
    (buildQueue [] (some 5) 7).length ≠ 2 :=
  ⟨rfl, rfl, by decide⟩

/-- C5 amended: the queue handed back on normal completion is the body
followed by exactly ONE reserved trailing operation, appended after the body
returns, which first destroys the Tracking Record and then, when a
notification value was supplied, emits the completion notification (and emits
nothing when none was supplied). -/
theorem c5_amended_single_trailing (body : List Op) (ev : Option Nat)
    (id : Nat) (w : World) (e : Nat) :
    buildQueue body ev id = body ++ [Op.finalize id ev] ∧
    id ∉ (applyOp (Op.finalize id ev) w).entities ∧
    (applyOp (Op.finalize id (some e)) w).eventLog = w.eventLog ++ [e] ∧
    (applyOp (Op.finalize id none) w).eventLog = w.eventLog := by
  refine ⟨rfl, applyOp_finalize_not_mem id ev w, ?_, ?_⟩
  · simpa using applyOp_finalize_eventLog id (some e) w
  · simpa using applyOp_finalize_eventLog id none w

/-- C10: the trailing closure triggers the completion notification
unconditionally: applied to a world in which the record's entity was already
despawned by other means, the destruction step is a no-op rather than an
abort, and the notification is still delivered exactly once. -/
theorem c10_trigger_unconditional (id e : Nat) (w : World)
    (h1 : id ∉ w.entities) (h2 : ∀ p ∈ w.tasks, p.1 ≠ id) :
    applyOp (Op.finalize id (some e)) w =
      { w with eventLog := w.eventLog ++ [e] } ∧
    (applyOp (Op.finalize id (some e)) w).eventLog.count e =
      w.eventLog.count e + 1 := by
  have hd : despawnW id w = w := despawnW_absent id w h1 h2
  have h3 : applyOp (Op.finalize id (some e)) w =
      { w with eventLog := w.eventLog ++ [e] } := by
    simp [applyOp, hd]
  refine ⟨h3, ?_⟩
  rw [h3]
  simp

/-- C2: when a poll-all invocation succeeds, every live record whose
background computation has finished has its produced queue taken exactly once
(its stored handle becomes `taken`), the queue is appended to the tick's
pending command buffer — the new buffer is the old buffer followed by the
polled queues in iteration order, the record's queue among them — and buffer
application executes strictly in append order, so operations pushed earlier
run before operations pushed later and the reserved trailing operation runs
last. -/
theorem c2_poll_takes_once_appends_in_order (w w1 : World)
    (buf buf1 : List Op) (id : Nat) (q : List Op)
    (hid : getTask w id = some (TaskState.done q))
    (h : pollTasks w buf = .ok (w1, buf1)) :
    getTask w1 id = some TaskState.taken ∧
    buf1 = buf ++ (w.tasks.map (fun p => pollContrib p.2)).flatten ∧
    q ∈ w.tasks.map (fun p => pollContrib p.2) ∧
    (∀ (a b : List Op) (w0 : World),
      applyOps (a ++ b) w0 = applyOps b (applyOps a w0)) := by
  obtain ⟨hw1, hb1⟩ := pollTasks_ok h
  refine ⟨?_, hb1, ?_, applyOps_append⟩
  · rw [hw1]
    have hm : getTask
        { w with tasks := w.tasks.map (fun p => (p.1, afterPoll p.2)) } id
        = (getTask w id).map afterPoll := lookupTask_map afterPoll w.tasks id
    rw [hm, hid]
    rfl
  · have hmem : (id, TaskState.done q) ∈ w.tasks := lookupTask_mem hid
    exact List.mem_map.mpr ⟨(id, TaskState.done q), hmem, rfl⟩

/-- Witness for C2: a world with one pending and one finished record; polling
marks the finished handle taken and buffers exactly its queue, and `applyOps`
splits over append at a concrete instance. -/
theorem c2_witness :
    getTask ⟨2, [0, 1], [(1, TaskState.pending [] none false),
        (0, TaskState.taken)], [], []⟩ 0 = some TaskState.taken ∧
    [Op.domain 4] = [] ++
      (([(1, TaskState.pending [] none false),
          (0, TaskState.done [Op.domain 4])] :
        List (Nat × TaskState)).map (fun p => pollContrib p.2)).flatten ∧
    [Op.domain 4] ∈ ([(1, TaskState.pending [] none false),
        (0, TaskState.done [Op.domain 4])] :
      List (Nat × TaskState)).map (fun p => pollContrib p.2) ∧
    applyOps ([Op.domain 1] ++ [Op.domain 2]) World.empty =
      applyOps [Op.domain 2] (applyOps [Op.domain 1] World.empty) := by
  have H := c2_poll_takes_once_appends_in_order
    ⟨2, [0, 1], [(1, TaskState.pending [] none false),
      (0, TaskState.done [Op.domain 4])], [], []⟩
    ⟨2, [0, 1], [(1, TaskState.pending [] none false),
      (0, TaskState.taken)], [], []⟩
    [] [Op.domain 4] 0 [Op.domain 4] rfl rfl
  exact ⟨H.1, H.2.1, H.2.2.1, H.2.2.2 [Op.domain 1] [Op.domain 2] World.empty⟩

/-- C3: a successful poll-all invocation has no observable side effect on
shared state: the entity list, the domain state, the event log and the id
allocator are unchanged by the poll itself; every record whose background
computation is still running keeps exactly its stored handle; and when every
record is still running the invocation changes neither the world nor the
pending command buffer. -/
theorem c3_unfinished_poll_no_effect (w w1 : World) (buf buf1 : List Op)
    (h : pollTasks w buf = .ok (w1, buf1)) :
    w1.entities = w.entities ∧ w1.flags = w.flags ∧
    w1.eventLog = w.eventLog ∧ w1.nextId = w.nextId ∧
    (∀ id bd ev pk, getTask w id = some (TaskState.pending bd ev pk) →
      getTask w1 id = some (TaskState.pending bd ev pk)) ∧
    ((∀ p ∈ w.tasks, ∃ bd ev pk, p.2 = TaskState.pending bd ev pk) →
      w1 = w ∧ buf1 = buf) := by
  obtain ⟨hw1, hb1⟩ := pollTasks_ok h
  subst hw1
  refine ⟨rfl, rfl, rfl, rfl, ?_, ?_⟩
  · intro id bd ev pk hid
    have hm : getTask
        { w with tasks := w.tasks.map (fun p => (p.1, afterPoll p.2)) } id
        = (getTask w id).map afterPoll := lookupTask_map afterPoll w.tasks id
    rw [hm, hid]
    rfl
  · intro hall
    constructor
    · rw [map_afterPoll_of_pending hall]
    · rw [hb1, flatten_contrib_of_pending hall, List.append_nil]

/-- Witness for C3: polling a world whose single record is still running
returns the world and the buffer unchanged. -/
theorem c3_witness :
    (⟨1, [0], [(0, TaskState.pending [Op.domain 2] none false)], [], []⟩ :
        World).entities =
      (⟨1, [0], [(0, TaskState.pending [Op.domain 2] none false)], [], []⟩ :
        World).entities ∧
    ([] : List Nat) = ([] : List Nat) ∧
    ([] : List Nat) = ([] : List Nat) ∧
    (1 : Nat) = 1 ∧
    (∀ id bd ev pk,
      getTask ⟨1, [0], [(0, TaskState.pending [Op.domain 2] none false)],
          [], []⟩ id = some (TaskState.pending bd ev pk) →
      getTask ⟨1, [0], [(0, TaskState.pending [Op.domain 2] none false)],
          [], []⟩ id = some (TaskState.pending bd ev pk)) ∧
    ((∀ p ∈ ([(0, TaskState.pending [Op.domain 2] none false)] :
        List (Nat × TaskState)), ∃ bd ev pk,
          p.2 = TaskState.pending bd ev pk) →
      (⟨1, [0], [(0, TaskState.pending [Op.domain 2] none false)], [], []⟩ :
        World) =
        ⟨1, [0], [(0, TaskState.pending [Op.domain 2] none false)], [], []⟩ ∧
      ([Op.domain 9] : List Op) = [Op.domain 9]) :=
  c3_unfinished_poll_no_effect
    ⟨1, [0], [(0, TaskState.pending [Op.domain 2] none false)], [], []⟩
    ⟨1, [0], [(0, TaskState.pending [Op.domain 2] none false)], [], []⟩
    [Op.domain 9] [Op.domain 9] rfl

/-- C6: poll-all within one tick never double-applies a completed queue:
after a successful poll every finished handle is `taken`, and an immediately
repeated poll on the resulting state either panics (the taken handle is
polled after completion) or succeeds while changing nothing and buffering
nothing, so each completed background result is taken at most once. -/
theorem c6_poll_at_most_once (w w1 : World) (buf buf1 : List Op)
    (h : pollTasks w buf = .ok (w1, buf1)) :
    (∀ id q, getTask w id = some (TaskState.done q) →
      getTask w1 id = some TaskState.taken) ∧
    (∀ w2 buf2, pollTasks w1 buf1 = .ok (w2, buf2) →
      w2 = w1 ∧ buf2 = buf1) := by
  obtain ⟨hw1, hb1⟩ := pollTasks_ok h
  constructor
  · intro id q hid
    rw [hw1]
    have hm : getTask
        { w with tasks := w.tasks.map (fun p => (p.1, afterPoll p.2)) } id
        = (getTask w id).map afterPoll := lookupTask_map afterPoll w.tasks id
    rw [hm, hid]
    rfl
  · intro w2 buf2 h2
    obtain ⟨hw2, hb2⟩ := pollTasks_ok h2
    constructor
    · rw [hw2, hw1]
      show { w with tasks :=
          ((w.tasks.map (fun p : Nat × TaskState => (p.1, afterPoll p.2))).map
            (fun p : Nat × TaskState => (p.1, afterPoll p.2))) }
        = { w with tasks :=
              w.tasks.map (fun p : Nat × TaskState => (p.1, afterPoll p.2)) }
      rw [map_afterPoll_idem]
    · rw [hb2, hw1]
      show buf1 ++
          ((w.tasks.map (fun p : Nat × TaskState => (p.1, afterPoll p.2))).map
            (fun p : Nat × TaskState => pollContrib p.2)).flatten = buf1
      rw [join_map_pollContrib_afterPoll, List.append_nil]

/-- Witness for C6: after polling a finished record its handle is taken. -/
theorem c6_witness :
    getTask ⟨2, [0, 1], [(1, TaskState.pending [] none false),
        (0, TaskState.taken)], [], []⟩ 0 = some TaskState.taken :=
  (c6_poll_at_most_once
    ⟨2, [0, 1], [(1, TaskState.pending [] none false),
      (0, TaskState.done [Op.domain 4])], [], []⟩
    ⟨2, [0, 1], [(1, TaskState.pending [] none false),
      (0, TaskState.taken)], [], []⟩
    [] [Op.domain 4] rfl).1 0 [Op.domain 4] rfl

/-- C7: a launched task whose background body panics instead of completing is
re-propagated on the owning thread at poll time: once the panicking future
has resolved, the poll-all invocation that reaches the record itself fails
with the resumed panic, rather than silently leaving the record permanently
un-polled-complete. -/
theorem c7_task_failure_propagates (w0 w1 : World) (body : List Op)
    (ev : Option Nat) (buf : List Op)
    (hwf : ∀ p ∈ w0.tasks, p.1 < w0.nextId)
    (hnt : ∀ p ∈ w0.tasks, p.2 ≠ TaskState.taken)
    (hl : launch true body ev true w0 = .ok w1) :
    pollTasks (completeTask w0.nextId w1) buf =
      .error PanicKind.taskPanicked := by
  rw [launch_true_eq] at hl
  injection hl with hl
  subst hl
  have hfresh : ∀ p ∈ w0.tasks, p.1 ≠ w0.nextId :=
    fun p hp => Nat.ne_of_lt (hwf p hp)
  have hct := completeTask_tasks_append (TaskState.pending body ev true)
    { w0 with nextId := w0.nextId + 1,
              entities := w0.entities ++ [w0.nextId],
              tasks := w0.tasks ++ [(w0.nextId, TaskState.pending body ev true)] }
    hfresh rfl
  unfold pollTasks
  rw [hct]
  rw [show stepState w0.nextId (TaskState.pending body ev true)
        = TaskState.failed from rfl]
  rw [pollTasksGo_failed_last _ hnt]

/-- Witness for C7: a task launched on the empty world with a panicking body;
after its future resolves, poll-all panics with the resumed task panic. -/
theorem c7_witness :
    pollTasks (completeTask 0 ⟨1, [0],
        [(0, TaskState.pending [] none true)], [], []⟩) [] =
      .error PanicKind.taskPanicked :=
  c7_task_failure_propagates World.empty _ [] none [] (by decide) (by decide)
    rfl

/-- C4: for a launched task that completes normally, polling and applying the
tick's buffer delivers the supplied notification exactly once — the event log
gains exactly the optional payload, and nothing when none was supplied — and
delivery happens strictly after the destruction of the Tracking Record within
the same batch: the record is gone from the final state, and at every prefix
of the batch either no notification has been delivered yet or the record is
already destroyed. -/
theorem c4_notify_once_after_destroy (w0 : World) (body : List Op)
    (ev : Option Nat) (w1 : World)
    (hwfT : ∀ p ∈ w0.tasks, p.1 < w0.nextId)
    (hpend : ∀ p ∈ w0.tasks, ∃ bd e2 pk, p.2 = TaskState.pending bd e2 pk)
    (hbody : ∀ op ∈ body, isDomainOp op = true)
    (hl : launch true body ev false w0 = .ok w1) :
    ∃ w3 buf,
      pollTasks (completeTask w0.nextId w1) [] = .ok (w3, buf) ∧
      (applyOps buf w3).eventLog = w0.eventLog ++ ev.toList ∧
      w0.nextId ∉ (applyOps buf w3).entities ∧
      (∀ k, (applyOps (List.take k buf) w3).eventLog = w0.eventLog ∨
            w0.nextId ∉ (applyOps (List.take k buf) w3).entities) := by
  rw [launch_true_eq] at hl
  injection hl with hl
  subst hl
  have hfresh : ∀ p ∈ w0.tasks, p.1 ≠ w0.nextId :=
    fun p hp => Nat.ne_of_lt (hwfT p hp)
  have hct := completeTask_tasks_append (TaskState.pending body ev false)
    { w0 with nextId := w0.nextId + 1,
              entities := w0.entities ++ [w0.nextId],
              tasks := w0.tasks ++ [(w0.nextId, TaskState.pending body ev false)] }
    hfresh rfl
  set W2 := completeTask w0.nextId
    { w0 with nextId := w0.nextId + 1,
              entities := w0.entities ++ [w0.nextId],
              tasks := w0.tasks ++ [(w0.nextId, TaskState.pending body ev false)] }
    with hW2
  have htasks : W2.tasks = w0.tasks ++
      [(w0.nextId, TaskState.done (buildQueue body ev w0.nextId))] := by
    rw [hct]
    rfl
  have hpoll : ∀ p ∈ W2.tasks, pollable p.2 = true := by
    rw [htasks]
    intro p hp
    rcases List.mem_append.mp hp with h1 | h1
    · obtain ⟨bd, e2, pk, hpe⟩ := hpend p h1
      rw [hpe]
      rfl
    · rw [List.mem_singleton] at h1
      subst h1
      rfl
  have hpr := pollTasks_ok_of_pollable hpoll []
  set W3 : World :=
    { W2 with tasks := W2.tasks.map (fun p => (p.1, afterPoll p.2)) } with hW3
  have hbuf : ([] : List Op) ++
      (W2.tasks.map (fun p => pollContrib p.2)).flatten
      = buildQueue body ev w0.nextId := by
    rw [htasks]
    simp only [List.nil_append, List.map_append, List.flatten_append,
      flatten_contrib_of_pending hpend, List.map_cons, List.map_nil,
      List.flatten_cons, List.flatten_nil, List.append_nil]
    rfl
  rw [hbuf] at hpr
  have hW3log : W3.eventLog = w0.eventLog := rfl
  have hBQ : buildQueue body ev w0.nextId =
      body ++ [Op.finalize w0.nextId ev] := rfl
  have happly : ∀ wA : World, applyOps [Op.finalize w0.nextId ev] wA
      = applyOp (Op.finalize w0.nextId ev) wA := fun wA => rfl
  refine ⟨W3, buildQueue body ev w0.nextId, hpr, ?_, ?_, ?_⟩
  · rw [hBQ, applyOps_append, happly, applyOp_finalize_eventLog,
        (applyOps_domain hbody W3).2.1, hW3log]
  · rw [hBQ, applyOps_append, happly]
    exact applyOp_finalize_not_mem _ _ _
  · intro k
    by_cases hk : k ≤ body.length
    · left
      have htake : List.take k (body ++ [Op.finalize w0.nextId ev])
          = List.take k body := by
        rw [List.take_append_eq_append_take, Nat.sub_eq_zero_of_le hk]
        simp
      have hsub : ∀ op ∈ List.take k body, isDomainOp op = true :=
        fun op hop => hbody op (List.take_subset k body hop)
      rw [hBQ, htake, (applyOps_domain hsub W3).2.1, hW3log]
    · right
      obtain ⟨m, hm⟩ : ∃ m, k - body.length = m + 1 :=
        ⟨k - body.length - 1, by omega⟩
      have htake : List.take k (body ++ [Op.finalize w0.nextId ev])
          = List.take k body ++ [Op.finalize w0.nextId ev] := by
        rw [List.take_append_eq_append_take, hm]
        simp
      rw [hBQ, htake, applyOps_append, happly]
      exact applyOp_finalize_not_mem _ _ _

/-- Witness for C4: a task with one domain op and notification 5, launched on
the empty world, completed and polled: the event log gains exactly one event
5, entity 0 is destroyed, and no batch prefix shows the event while entity 0
is still live. -/
theorem c4_witness :
    ∃ w3 buf,
      pollTasks (completeTask 0 ⟨1, [0],
          [(0, TaskState.pending [Op.domain 3] (some 5) false)], [], []⟩) []
        = .ok (w3, buf) ∧
      (applyOps buf w3).eventLog = [] ++ (some 5).toList ∧
      (0 : Nat) ∉ (applyOps buf w3).entities ∧
      (∀ k, (applyOps (List.take k buf) w3).eventLog = [] ∨
            (0 : Nat) ∉ (applyOps (List.take k buf) w3).entities) :=
  c4_notify_once_after_destroy World.empty [Op.domain 3] (some 5) _
    (by decide) (by intro p hp; simp [World.empty] at hp) (by decide) rfl

/-- Witness for C10: the record entity 0 is already gone; the trailing closure
still delivers event 9 exactly once. -/
theorem c10_witness :
    applyOp (Op.finalize 0 (some 9)) ⟨3, [1], [(1, TaskState.taken)], [], [4]⟩ =
      { (⟨3, [1], [(1, TaskState.taken)], [], [4]⟩ : World) with
          eventLog := [4] ++ [9] } ∧
    (applyOp (Op.finalize 0 (some 9))
        ⟨3, [1], [(1, TaskState.taken)], [], [4]⟩).eventLog.count 9 =
      ([4] : List Nat).count 9 + 1 :=
  c10_trigger_unconditional 0 9 ⟨3, [1], [(1, TaskState.taken)], [], [4]⟩
    (by decide) (by decide)

end QTasks
